import Mathlib

/-!
Verification of `src/status.py`, a concurrent URL status checker built on a
cooperative (asyncio-style) event loop.  The Python source is shallowly
embedded below:

* pure helpers (`strip`, rate parsing, domain matching, registry sorting,
  URL normalisation, domain extraction) become Lean functions on `String`
  and `List Char`;
* the shared-file worker pool (lines 28-51 and 99-104 of the source)
  becomes a small-step transition system `PoolStep` whose atomic steps are
  the synchronous stretches between `await` points of a worker coroutine;
* the rate gate `RateLimit.wait` (lines 79-87) becomes the transition
  system `GateStep` over the shared `last_use` timestamp;
* the output-flushing behaviour (lines 34 and 50-51) becomes the
  `SinkAct` / `workerActs` / `flushTrace` models.

Python floats are modelled by `ℚ` (the claims under study do not depend on
binary rounding), machine text by Lean `String`/`List Char`.
-/

/-! ### String primitives -/

/-- Python `str.strip()` with no argument: drop whitespace from both ends
(modelled on the character list of the string; models line 43 `line.strip()`). -/
def pyStripChars (l : List Char) : List Char :=
  ((l.dropWhile Char.isWhitespace).reverse.dropWhile Char.isWhitespace).reverse

/-- `String` version of `pyStripChars`. -/
def pyStrip (s : String) : String := ⟨pyStripChars s.data⟩

/-- A character matched by the regex class `\w` (modelled on its ASCII subset:
letters, digits and underscore), used by `PROTOCOL_PATTERN = ^\w+://` (line 12). -/
def isWordChar (c : Char) : Bool := c.isAlphanum || c == '_'

/-- Does the anchored regex `PROTOCOL_PATTERN` (line 12, word characters
followed by the three characters colon slash slash) match the given URL
(line 17)?  A colon is not a word character, so the regex
matches iff the maximal word-character prefix is nonempty and is followed
by the literal `://`. -/
def hasProtocol (url : String) : Bool :=
  match url.data.takeWhile isWordChar, url.data.dropWhile isWordChar with
  | [], _ => false
  | _ :: _, ':' :: '/' :: '/' :: _ => true
  | _, _ => false

/-- Line 17-18: if the URL does not start with `scheme://`, prepend `http://`. -/
def normalizeUrl (url : String) : String :=
  if hasProtocol url then url else "http://" ++ url

/-- The group captured by the anchored regex `DOMAIN_PATTERN` (lines 13 and
20: one or more non-colon characters, colon slash slash, then the captured
group of one or more characters that are neither slash nor colon), or
`none` when the pattern does not match (in which case line 20 raises
`AttributeError` on `.group(1)`).  The leading class cannot contain a
colon, so it must be the (nonempty) text before the first colon, which
must be followed by two slashes; the group is then the maximal nonempty
run of characters other than slash and colon. -/
def extractDomain (url : String) : Option String :=
  match url.data.dropWhile (fun c => c != ':') with
  | ':' :: '/' :: '/' :: tail =>
    if url.data.takeWhile (fun c => c != ':') = [] then none
    else
      match tail.takeWhile (fun c => c != '/' && c != ':') with
      | [] => none
      | dom => some ⟨dom⟩
  | _ => none

/-- Strict lexicographic (code-point) order on character lists: the order
Python uses to compare `str` values, as in `options.rate.sort` (line 97). -/
def lexLt : List Char → List Char → Bool
  | [], [] => false
  | [], _ :: _ => true
  | _ :: _, [] => false
  | a :: as, b :: bs => if a < b then true else if b < a then false else lexLt as bs

/-- Python `a < b` on strings. -/
def strLtPy (a b : String) : Bool := lexLt a.data b.data

/-- Python `s.endswith(t)` (line 77). -/
def strEndsWith (s t : String) : Bool := t.data.isSuffixOf s.data

/-! ### Rate parsing (`RateLimit.__init__`, lines 57-70) -/

/-- Decimal digit test. -/
def isDigitCh (c : Char) : Bool := '0' ≤ c && c ≤ '9'

/-- Numeric value of a digit list, most significant first. -/
def natOfDigits (l : List Char) : ℕ :=
  l.foldl (fun a c => 10 * a + (c.toNat - 48)) 0

/-- Consume an optional leading sign; return (isNegative, rest). -/
def splitSign : List Char → Bool × List Char
  | '-' :: cs => (true, cs)
  | '+' :: cs => (false, cs)
  | cs => (false, cs)

/-- Model of the Python `float()` builtin (line 63) on the sign / digits /
decimal point / exponent forms of its grammar, after whitespace stripping.
(The `inf`, `nan` and underscore-separated forms accepted by `float()` are
not needed by any claim and are left out of the model.)  Returns `none`
exactly when `float()` raises `ValueError` on such an input. -/
def pyFloat (s : String) : Option ℚ :=
  let cs := pyStripChars s.data
  let (neg, cs) := splitSign cs
  let intDigits := cs.takeWhile isDigitCh
  let cs1 := cs.dropWhile isDigitCh
  let fracDigits :=
    match cs1 with
    | '.' :: rest => rest.takeWhile isDigitCh
    | _ => []
  let cs2 :=
    match cs1 with
    | '.' :: rest => rest.dropWhile isDigitCh
    | _ => cs1
  if intDigits = [] && fracDigits = [] then none
  else
    let mantissa : ℚ :=
      (natOfDigits intDigits : ℚ) + (natOfDigits fracDigits : ℚ) / (10 : ℚ) ^ fracDigits.length
    let signed : ℚ := if neg then -mantissa else mantissa
    match cs2 with
    | [] => some signed
    | 'e' :: rest | 'E' :: rest =>
      let (eneg, rest') := splitSign rest
      let eDigits := rest'.takeWhile isDigitCh
      if eDigits = [] || rest'.dropWhile isDigitCh ≠ [] then none
      else
        let e := natOfDigits eDigits
        some (if eneg then signed / (10 : ℚ) ^ e else signed * (10 : ℚ) ^ e)
    | _ => none

/-- Python `raw.split` at the first colon (lines 60-61): the text
before the first colon and the text after it; `none` when `raw` has no colon. -/
def splitAtColon (s : String) : Option (String × String) :=
  match s.data.dropWhile (fun c => c != ':') with
  | ':' :: tail => some (⟨s.data.takeWhile (fun c => c != ':')⟩, ⟨tail⟩)
  | _ => none

/-- The `rate_text` variable of `RateLimit.__init__` (lines 58-61): the part
of the raw `--rate` argument after the first colon, or the whole argument. -/
def ratePart (raw : String) : String :=
  match splitAtColon raw with
  | some p => p.2
  | none => raw

/-- The `domain` variable of `RateLimit.__init__` (lines 58-61): `None` when
the raw argument has no colon, otherwise the (possibly empty) text before
the first colon. -/
def domainPart (raw : String) : Option String :=
  match splitAtColon raw with
  | some p => some p.1
  | none => none

/-- The `RateLimit` object of lines 54-87: optional domain scope, rate,
minimum interval between uses, timestamp of last use. -/
structure RateLimit where
  domain : Option String
  rate : ℚ
  interval : ℚ
  last_use : ℚ
deriving DecidableEq, Repr

/-- `RateLimit.__init__` (lines 57-70): split off an optional `domain:`
scope, parse the rate with `float()` (a failure raises `ValueError`,
modelled as `Except.error`), and set `interval = 1/rate` when `rate > 0`
and `0` otherwise; `last_use` starts at `0`. -/
def rateLimitInit (raw : String) : Except String RateLimit :=
  match pyFloat (ratePart raw) with
  | none => Except.error ("Invalid rate format: " ++ raw)
  | some rate =>
    Except.ok ⟨domainPart raw, rate, if 0 < rate then 1 / rate else 0, 0⟩

/-- `RateLimit.matches` (lines 72-77): a falsy (`None` or empty) domain
scope matches everything; otherwise match iff the queried domain equals the
scope or ends with `"." + scope`. -/
def RateLimit.matches (r : RateLimit) (domain : String) : Bool :=
  match r.domain with
  | none => true
  | some d => if d = "" then true else (domain == d) || strEndsWith domain ("." ++ d)

/-- The sort key of line 97: `lambda x: x.domain or ''`. -/
def sortKey (r : RateLimit) : String := r.domain.getD ""

/-- Insert into a list already sorted descending by `sortKey` (Python string
order), before the first entry whose key is not greater than the key of
the new entry, so that
entries inserted earlier stay in front of later ones with an equal key. -/
def insertByKey (x : RateLimit) : List RateLimit → List RateLimit
  | [] => [x]
  | y :: ys => if strLtPy (sortKey x) (sortKey y) then y :: insertByKey x ys else x :: y :: ys

/-- `options.rate.sort(key=lambda x: x.domain or '', reverse=True)`
(line 97): a stable sort, descending in the Python lexicographic string
order of the key. -/
def sortRegistry : List RateLimit → List RateLimit
  | [] => []
  | x :: xs => insertByKey x (sortRegistry xs)

/-- Line 21: `next((x for x in options.rate if x.matches(domain)), None)` —
the first rate limit in registry order matching the domain. -/
def resolve (registry : List RateLimit) (domain : String) : Option RateLimit :=
  registry.find? (fun x => x.matches domain)

/-! ### One worker iteration (`worker`, lines 39-48, and `get_status`, lines 15-26) -/

/-- The message of the `AttributeError` raised at line 20 when
`DOMAIN_PATTERN` fails to match (calling `.group(1)` on `None`); Python
renders it with quotes around `NoneType` and `group`. -/
def attrMsg : String := "NoneType object has no attribute group"

/-- The row written by the error branch, line 48: `writer.writerow` of the
URL and of the text `ERROR: ` followed by the exception message. -/
def errorRow (url msg : String) : List String := [url, "ERROR: " ++ msg]

/-- The row of the success branch, line 46.  As committed that line is not
even syntactically valid Python (string literals juxtaposed with names);
this models its charitable reading, concatenating the juxtaposed pieces:
the first field is `Status:` followed by the rendered status, the second
an HTML-like fragment around two copies of the URL. -/
def successRow (url : String) (status : ℕ) : List String :=
  ["Status:" ++ toString status, " <br><a href=" ++ url ++ ">" ++ url ++ "</br>"]

/-- The body of the `try` block, lines 44-48, for one stripped URL.
`oracle` is the HTTP collaborator (`session.head`, line 25, applied to the
normalized URL): it returns the final numeric status or fails with a
transport error message.  Any failure — including the `AttributeError`
from a failed domain extraction — is caught by `except Exception` and
turned into an error row; the rate-gate wait of lines 21-23 only suspends
and is modelled separately by `GateStep`. -/
def check (oracle : String → Except String ℕ) (url : String) : List String :=
  let u := normalizeUrl url
  match extractDomain u with
  | none => errorRow url attrMsg
  | some _ =>
    match oracle u with
    | Except.ok status => successRow url status
    | Except.error e => errorRow url e

/-! ### The worker pool (lines 28-51 and 99-104)

`CONCURRENT_REQUESTS` worker coroutines share one file object and one
output stream on a single-threaded cooperative event loop.  The atomic
steps are the synchronous stretches between `await` points:

* `read` — line 40-43: `file.readline()` returns the next line (readline is
  synchronous, so no two workers can take the same line) and the worker
  strips it and starts `get_status`;
* `readBreak` — lines 40-42 when `readline` returns an empty string: the
  worker
  breaks out of its loop;
* `eof` — the same break when the file is exhausted;
* `finish` — lines 45-48: the awaited `get_status` resolves (or raises)
  and the worker synchronously writes exactly one row for its URL.

The state records the not-yet-read lines, how many workers are about to
call `readline`, the stripped URLs currently in flight, how many workers
have exited, and the rows written so far (each paired with the stripped
URL it was produced for). -/

structure PoolState where
  remaining : List String
  ready : ℕ
  working : List String
  done : ℕ
  recs : List (String × List String)
deriving DecidableEq, Repr

/-- One atomic scheduler slice of some worker; `row` gives the row written
for a stripped URL (instantiated with `check oracle`). -/
inductive PoolStep (row : String → List String) : PoolState → PoolState → Prop where
  | read : ∀ (l : String) (rest : List String) (r : ℕ) (w : List String) (d : ℕ)
      (recs : List (String × List String)), l ≠ "" →
      PoolStep row ⟨l :: rest, r + 1, w, d, recs⟩ ⟨rest, r, pyStrip l :: w, d, recs⟩
  | readBreak : ∀ (rest : List String) (r : ℕ) (w : List String) (d : ℕ)
      (recs : List (String × List String)),
      PoolStep row ⟨"" :: rest, r + 1, w, d, recs⟩ ⟨rest, r, w, d + 1, recs⟩
  | eof : ∀ (r : ℕ) (w : List String) (d : ℕ) (recs : List (String × List String)),
      PoolStep row ⟨[], r + 1, w, d, recs⟩ ⟨[], r, w, d + 1, recs⟩
  | finish : ∀ (rem : List String) (r : ℕ) (w1 : List String) (u : String)
      (w2 : List String) (d : ℕ) (recs : List (String × List String)),
      PoolStep row ⟨rem, r, w1 ++ u :: w2, d, recs⟩
        ⟨rem, r + 1, w1 ++ w2, d, recs ++ [(u, row u)]⟩

/-- Any interleaving of worker slices. -/
def PoolReach (row : String → List String) : PoolState → PoolState → Prop :=
  Relation.ReflTransGen (PoolStep row)

/-- Lines 99-104: `n` fresh workers over the unread file. -/
def poolInit (n : ℕ) (lines : List String) : PoolState := ⟨lines, n, [], 0, []⟩

/-- Line 11: the fixed pool size. -/
def CONCURRENT_REQUESTS : ℕ := 200

/-! ### The rate gate (`RateLimit.wait`, lines 79-87)

Task slices of `wait` on one shared `RateLimit`: the loop re-evaluates
`remaining = last_use + interval - time.time()` after every sleep, and when
it finally sees `remaining <= 0` it exits the loop and runs
`self.last_use = time.time()` with no `await` in between — so on the
single-threaded event loop the successful check and the write of
`last_use` are one atomic slice (`acquire`).  A failed check merely sleeps
(no state change); the passage of wall-clock time is the `tick` step.
Each task is identified by an index; `tasks i = some t` means task `i`
completed its acquisition and recorded timestamp `t` into `last_use`. -/

structure GateState where
  time : ℚ
  last_use : ℚ
  tasks : ℕ → Option ℚ

/-- Steps of the gate for a given `interval` (`self.interval`). -/
inductive GateStep (interval : ℚ) : GateState → GateState → Prop where
  | tick : ∀ (t t' lu : ℚ) (ts : ℕ → Option ℚ), t ≤ t' →
      GateStep interval ⟨t, lu, ts⟩ ⟨t', lu, ts⟩
  | acquire : ∀ (t lu : ℚ) (ts : ℕ → Option ℚ) (i : ℕ), ts i = none →
      lu + interval ≤ t →
      GateStep interval ⟨t, lu, ts⟩ ⟨t, t, Function.update ts i (some t)⟩

/-- Reachability of the gate system. -/
def GateReach (interval : ℚ) : GateState → GateState → Prop :=
  Relation.ReflTransGen (GateStep interval)

/-- A fresh gate: `last_use = 0` (line 70), every task still waiting,
clock at `t0`. -/
def gateInit (t0 : ℚ) : GateState := ⟨t0, 0, fun _ => none⟩

/-! ### Output flushing (lines 34 and 50-51) -/

/-- An observable action on the shared output stream. -/
inductive SinkAct where
  | write (row : List String)
  | flush
deriving DecidableEq

/-- Line 50: after writing a record at wall-clock time `now`, the worker
flushes iff `time.time() - start_time > 2`, where `start_time` is that
own start time of that worker (line 34), set once and never updated. -/
def flushAfterRecord (start now : ℚ) : Bool := decide (2 < now - start)

/-- The sink actions of one worker that writes its rows at the given times
(lines 39-51): each row, followed by a flush exactly when the 2-second
check against the start time of the worker fires. -/
def workerActs (start : ℚ) (jobs : List (ℚ × List String)) : List SinkAct :=
  jobs.flatMap (fun j =>
    SinkAct.write j.2 :: (if flushAfterRecord start j.1 then [SinkAct.flush] else []))

/-- `Interleave ls out`: `out` is an interleaving of the lists in `ls`,
preserving the order within each. -/
inductive Interleave {α : Type} : List (List α) → List α → Prop where
  | done : ∀ ls : List (List α), (∀ l ∈ ls, l = []) → Interleave ls []
  | pick : ∀ (pre : List (List α)) (a : α) (rest : List α) (post : List (List α))
      (out : List α), Interleave (pre ++ rest :: post) out →
      Interleave (pre ++ (a :: rest) :: post) (a :: out)

/-- Lines 99-104: the entire sequence of sink actions of the program is
some interleaving of the actions of the `CONCURRENT_REQUESTS` workers.
After
`run_until_complete(gather(...))` returns, the script ends: no close or
flush of the output stream follows. -/
def ProgramTrace (logs : List (List SinkAct)) (tr : List SinkAct) : Prop :=
  logs.length = CONCURRENT_REQUESTS ∧ Interleave logs tr

/-- The per-record flush decisions of one worker: the times at which it
writes
its records, each paired with whether line 50-51 flushes afterwards. -/
def flushTrace (start : ℚ) (times : List ℚ) : List (ℚ × Bool) :=
  times.map (fun t => (t, flushAfterRecord start t))

/-- Formalisation of the claim wording for C7: every flush decision is
`true` iff more than 2 seconds elapsed since the previous flush (the
baseline before any flush being `lastF`). -/
def sinceLastFlushOk : ℚ → List (ℚ × Bool) → Bool
  | _, [] => true
  | lastF, (t, f) :: rest =>
    (f == decide (2 < t - lastF)) && sinceLastFlushOk (if f then t else lastF) rest

/-- Formalisation of the amended wording for C7: every flush decision is
`true` iff more than 2 seconds elapsed since the start of the worker. -/
def sinceStartOk (start : ℚ) : List (ℚ × Bool) → Bool
  | [] => true
  | (t, f) :: rest => (f == decide (2 < t - start)) && sinceStartOk start rest

/-! ## Helper lemmas -/

/-- Invariant of the worker pool: the empty string never appears among the
unread lines; worker count is conserved across the three phases; once some
worker has exited, the input was already exhausted; the stripped URLs of
the written rows, the in-flight URLs and the unread lines (stripped) are
together a permutation of all input lines (stripped); and every written
row is the row `row` produces for its URL. -/
theorem poolStep_inv {row : String → List String} {n : ℕ} {lines : List String}
    (hno : "" ∉ lines) {s : PoolState} (h : PoolReach row (poolInit n lines) s) :
    "" ∉ s.remaining ∧
    s.ready + s.working.length + s.done = n ∧
    (1 ≤ s.done → s.remaining = []) ∧
    ((↑(s.recs.map Prod.fst) + ↑s.working + ↑(s.remaining.map pyStrip) : Multiset String)
        = (↑(lines.map pyStrip) : Multiset String)) ∧
    (∀ p ∈ s.recs, p.2 = row p.1) := by
  induction h with
  | refl =>
    refine ⟨hno, by simp [poolInit], by simp [poolInit], by simp [poolInit], by simp [poolInit]⟩
  | tail _hab hstep ih =>
    obtain ⟨ih1, ih2, ih3, ih4, ih5⟩ := ih
    cases hstep with
    | read l rest r w d recs hl =>
      refine ⟨fun hm => ih1 (List.mem_cons_of_mem _ hm), by simp at ih2 ⊢; omega,
        fun hd => absurd (ih3 hd) (List.cons_ne_nil _ _), ?_, ih5⟩
      simp only [List.map_cons] at ih4 ⊢
      rw [← ih4]
      simp only [← Multiset.cons_coe, ← Multiset.singleton_add]
      abel
    | readBreak rest r w d recs =>
      exact absurd (List.mem_cons_self "" rest) ih1
    | eof r w d recs =>
      exact ⟨ih1, by simp at ih2 ⊢; omega, fun _ => rfl, ih4, ih5⟩
    | finish rem r w1 u w2 d recs =>
      refine ⟨ih1, by simp at ih2 ⊢; omega, ih3, ?_, ?_⟩
      · rw [← ih4]
        simp only [List.map_append, List.map_cons, List.map_nil, ← Multiset.coe_add,
          ← Multiset.cons_coe, ← Multiset.singleton_add, Multiset.coe_singleton]
        abel
      · intro p hp
        rcases List.mem_append.mp hp with hp | hp
        · exact ih5 p hp
        · simp at hp; subst hp; rfl

/-- Invariant of the rate gate: every recorded acquisition timestamp is at
most the current `last_use`, and the recorded timestamps of any two
distinct tasks are at least `interval` apart.  The key case is `acquire`,
whose check `last_use + interval ≤ now` and write `last_use := now` form
one atomic slice. -/
theorem gate_inv {interval t0 : ℚ} (hint : 0 ≤ interval) {s : GateState}
    (h : GateReach interval (gateInit t0) s) :
    (∀ i ti, s.tasks i = some ti → ti ≤ s.last_use) ∧
    (∀ i j ti tj, i ≠ j → s.tasks i = some ti → s.tasks j = some tj →
      interval ≤ |ti - tj|) := by
  induction h with
  | refl => exact ⟨fun i ti h => by simp [gateInit] at h, fun i j ti tj _ h => by
      simp [gateInit] at h⟩
  | tail _hab hstep ih =>
    obtain ⟨ih1, ih2⟩ := ih
    cases hstep with
    | tick t tt lu ts htt => exact ⟨ih1, ih2⟩
    | acquire t lu ts k hk hle =>
      dsimp only at ih1 ih2 ⊢
      constructor
      · intro i ti hti
        by_cases hik : i = k
        · subst hik
          rw [Function.update_same] at hti
          injection hti with hh
          exact le_of_eq hh.symm
        · rw [Function.update_noteq hik] at hti
          have := ih1 i ti hti
          linarith
      · intro i j ti tj hij hti htj
        by_cases hik : i = k <;> by_cases hjk : j = k
        · exact absurd (hik.trans hjk.symm) hij
        · subst hik
          rw [Function.update_same] at hti
          rw [Function.update_noteq hjk] at htj
          injection hti with hh
          have h1 := ih1 j tj htj
          have h2 : interval ≤ ti - tj := by linarith [hh.symm.le, hh.le]
          calc interval ≤ ti - tj := h2
            _ ≤ |ti - tj| := le_abs_self _
        · subst hjk
          rw [Function.update_same] at htj
          rw [Function.update_noteq hik] at hti
          injection htj with hh
          have h1 := ih1 i ti hti
          have h2 : interval ≤ tj - ti := by linarith [hh.symm.le, hh.le]
          rw [abs_sub_comm]
          calc interval ≤ tj - ti := h2
            _ ≤ |tj - ti| := le_abs_self _
        · rw [Function.update_noteq hik] at hti
          rw [Function.update_noteq hjk] at htj
          exact ih2 i j ti tj hij hti htj

/-- With a nonnegative starting clock, `last_use` never exceeds the clock. -/
theorem gate_last_use_le_time {interval t0 : ℚ} (h0 : 0 ≤ t0) {s : GateState}
    (h : GateReach interval (gateInit t0) s) : s.last_use ≤ s.time := by
  induction h with
  | refl => exact h0
  | tail _hab hstep ih =>
    cases hstep with
    | tick t tt lu ts htt => exact le_trans ih htt
    | acquire t lu ts k hk hle => exact le_refl t

/-- Interleaving worker logs preserves the number of occurrences of any
action: the program trace contains exactly the actions of the workers. -/
theorem interleave_count {α : Type} [DecidableEq α] (x : α) {ls : List (List α)}
    {out : List α} (h : Interleave ls out) :
    out.count x = (ls.map (List.count x)).sum := by
  induction h with
  | done ls hls =>
    simp only [List.count_nil]
    symm
    apply List.sum_eq_zero
    intro y hy
    obtain ⟨l, hl, rfl⟩ := List.mem_map.mp hy
    rw [hls l hl]
    rfl
  | pick pre a rest post out hrec ih =>
    simp only [List.count_cons, List.map_append, List.map_cons, List.sum_append,
      List.sum_cons] at ih ⊢
    rcases Bool.eq_false_or_eq_true (a == x) with hb | hb <;> simp [hb] at ih ⊢ <;> omega

/-- A single active worker next to any number of finished (empty-log)
workers interleaves to exactly its own log. -/
theorem interleave_single {α : Type} (l : List α) (n : ℕ) :
    Interleave (l :: List.replicate n []) l := by
  induction l with
  | nil =>
    apply Interleave.done
    intro x hx
    rcases List.mem_cons.mp hx with rfl | hx
    · rfl
    · exact List.eq_of_mem_replicate hx
  | cons a rest ih =>
    exact Interleave.pick [] a rest (List.replicate n []) rest ih

/-! ## Claim theorems -/

/-- C1: for every pool size `n ≥ 1` and every scheduling of the workers, a
completed run (all workers idle-free and exited) writes exactly one row per
input line — in particular exactly one row per non-blank input line, none
lost, none duplicated: the stripped URLs of the rows are a permutation of
the stripped input lines (and likewise after discarding blank lines).
The hypothesis `"" ∉ lines` is the `readline` contract: `readline` yields
the empty string only at end of file. -/
theorem c1_exactly_once (oracle : String → Except String ℕ) (lines : List String) (n : ℕ)
    (s : PoolState) (hn : 1 ≤ n) (hno : "" ∉ lines)
    (h : PoolReach (check oracle) (poolInit n lines) s)
    (hready : s.ready = 0) (hwork : s.working = []) :
    ((s.recs.map Prod.fst).filter (fun u => u ≠ "")).Perm
        ((lines.map pyStrip).filter (fun u => u ≠ "")) ∧
    (s.recs.map Prod.fst).Perm (lines.map pyStrip) := by
  obtain ⟨h1, h2, h3, h4, h5⟩ := poolStep_inv hno h
  have hd : s.done = n := by rw [hready, hwork] at h2; simpa using h2
  have hrem : s.remaining = [] := h3 (by omega)
  have hms : (↑(s.recs.map Prod.fst) : Multiset String) = ↑(lines.map pyStrip) := by
    rw [hwork, hrem] at h4; simpa using h4
  have hperm := Multiset.coe_eq_coe.mp hms
  exact ⟨hperm.filter _, hperm⟩

/-- Witness for C1 at a concrete completed run: one worker, one line. -/
theorem c1_exactly_once_witness :
    ((([("a", check (fun _ => Except.ok 200) "a")].map Prod.fst).filter (fun u => u ≠ "")).Perm
      ((["a"].map pyStrip).filter (fun u => u ≠ ""))) ∧
    ([("a", check (fun _ => Except.ok 200) "a")].map Prod.fst).Perm (["a"].map pyStrip) := by
  have hs : pyStrip "a" = "a" := by decide
  have t1 : PoolStep (check (fun _ => Except.ok 200)) ⟨["a"], 1, [], 0, []⟩
      ⟨[], 0, ["a"], 0, []⟩ := by
    have h := @PoolStep.read (check (fun _ => Except.ok 200)) "a" [] 0 [] 0 [] (by decide)
    rwa [hs] at h
  have t2 : PoolStep (check (fun _ => Except.ok 200)) ⟨[], 0, ["a"], 0, []⟩
      ⟨[], 1, [], 0, [("a", check (fun _ => Except.ok 200) "a")]⟩ :=
    PoolStep.finish [] 0 [] "a" [] 0 []
  have t3 : PoolStep (check (fun _ => Except.ok 200))
      ⟨[], 1, [], 0, [("a", check (fun _ => Except.ok 200) "a")]⟩
      ⟨[], 0, [], 1, [("a", check (fun _ => Except.ok 200) "a")]⟩ :=
    PoolStep.eof 0 [] 0 _
  have hreach : PoolReach (check (fun _ => Except.ok 200)) (poolInit 1 ["a"])
      ⟨[], 0, [], 1, [("a", check (fun _ => Except.ok 200) "a")]⟩ :=
    Relation.ReflTransGen.head t1 (Relation.ReflTransGen.head t2 (Relation.ReflTransGen.single t3))
  exact c1_exactly_once (fun _ => Except.ok 200) ["a"] 1 _ (le_refl 1) (by decide) hreach rfl rfl

/-- C2 (refuted as stated, evidencing the code bug): line 97 sorts the
registry with the Python string order of the key (the domain, or the empty
string for a catch-all) descending —
lexicographic, not by length — although its comment says "longest (i.e.
most specific) domain first".  With rules for `"z.co"` and `"a.z.co"`, the
shorter `"z.co"` sorts first, and resolving `"a.z.co"` returns the
`"z.co"` rule even though the strictly more specific `"a.z.co"` rule also
matches. -/
theorem c2_sort_lexicographic :
    (sortRegistry [⟨some "z.co", 1, 1, 0⟩, ⟨some "a.z.co", 2, 1/2, 0⟩]).map RateLimit.domain
      = [some "z.co", some "a.z.co"] ∧
    (resolve (sortRegistry [⟨some "z.co", 1, 1, 0⟩, ⟨some "a.z.co", 2, 1/2, 0⟩])
        "a.z.co").map RateLimit.domain = some (some "z.co") ∧
    RateLimit.matches ⟨some "a.z.co", 2, 1/2, 0⟩ "a.z.co" = true ∧
    "z.co".length < "a.z.co".length :=
  ⟨by decide, by decide, by decide, by decide⟩

/-- C3: on the cooperative event loop the final check of `RateLimit.wait`
and the write to `last_use` are one atomic slice, so for `interval > 0`
the recorded acquisition timestamps of any two distinct tasks on one
shared `RateLimit` are at least `interval` apart — two concurrent acquisitions
can never both observe a stale `last_use` and complete together. -/
theorem c3_rate_gate (rl : RateLimit) (hpos : 0 < rl.interval) (t0 : ℚ) (s : GateState)
    (hr : GateReach rl.interval (gateInit t0) s) (i j : ℕ) (ti tj : ℚ) (hij : i ≠ j)
    (hi : s.tasks i = some ti) (hj : s.tasks j = some tj) : rl.interval ≤ |ti - tj| :=
  (gate_inv (le_of_lt hpos) hr).2 i j ti tj hij hi hj

/-- Witness for C3: a concrete two-task run at interval 1, acquiring at
times 1 and 2. -/
theorem c3_rate_gate_witness :
    GateReach ((⟨none, 1, 1, 0⟩ : RateLimit)).interval (gateInit 0)
      ⟨2, 2, Function.update (Function.update (fun _ => none) 0 (some 1)) 1 (some 2)⟩ ∧
    (⟨none, 1, 1, 0⟩ : RateLimit).interval ≤ |(1 : ℚ) - 2| := by
  have t1 : GateStep (1 : ℚ) ⟨0, 0, fun _ => none⟩ ⟨1, 0, fun _ => none⟩ :=
    GateStep.tick 0 1 0 (fun _ => none) (by norm_num)
  have t2 : GateStep (1 : ℚ) ⟨1, 0, fun _ => none⟩
      ⟨1, 1, Function.update (fun _ => none) 0 (some 1)⟩ :=
    GateStep.acquire 1 0 (fun _ => none) 0 rfl (by norm_num)
  have t3 : GateStep (1 : ℚ) ⟨1, 1, Function.update (fun _ => none) 0 (some 1)⟩
      ⟨2, 1, Function.update (fun _ => none) 0 (some 1)⟩ :=
    GateStep.tick 1 2 1 (Function.update (fun _ => none) 0 (some 1)) (by norm_num)
  have t4 : GateStep (1 : ℚ) ⟨2, 1, Function.update (fun _ => none) 0 (some 1)⟩
      ⟨2, 2, Function.update (Function.update (fun _ => none) 0 (some 1)) 1 (some 2)⟩ :=
    GateStep.acquire 2 1 (Function.update (fun _ => none) 0 (some 1)) 1
      (by simp [Function.update]) (by norm_num)
  have hreach : GateReach (1 : ℚ) (gateInit 0)
      ⟨2, 2, Function.update (Function.update (fun _ => none) 0 (some 1)) 1 (some 2)⟩ :=
    Relation.ReflTransGen.head t1 (Relation.ReflTransGen.head t2
      (Relation.ReflTransGen.head t3 (Relation.ReflTransGen.single t4)))
  refine ⟨hreach, ?_⟩
  exact c3_rate_gate ⟨none, 1, 1, 0⟩ (by norm_num) 0 _ hreach 0 1 1 2 (by norm_num)
    (by simp [Function.update]) (by simp [Function.update])

/-- C4 (refuted as stated, evidencing the code bug): the success branch of
line 46 — which as committed is not even valid Python — under its
charitable concatenation reading emits `"Status:" + str(status)` as the
first field and an HTML-like fragment as the second; the first field is
not the original URL.  Only the error branch (line 48) emits
`[url, error-message]` as the claim describes. -/
theorem c4_success_row_malformed :
    check (fun _ => Except.ok 200) "example.com"
      = ["Status:200", " <br><a href=example.com>example.com</br>"] ∧
    "Status:200" ≠ "example.com" ∧
    errorRow "example.com" "boom" = ["example.com", "ERROR: boom"] := by decide

/-- C5 (refuted as stated): a line that is blank after stripping is not
skipped.  A completed one-worker run over the single whitespace line
`"  "` writes one record for it: domain extraction fails on
`"http://"` and the `except` branch emits an error row. -/
theorem c5_blank_counterexample :
    PoolReach (check (fun _ => Except.error "x")) (poolInit 1 ["  "])
      ⟨[], 0, [], 1, [("", errorRow "" attrMsg)]⟩ ∧
    pyStrip "  " = "" ∧ errorRow "" attrMsg ≠ [] := by
  have hs : pyStrip "  " = "" := by decide
  have hc : check (fun _ => Except.error "x") "" = errorRow "" attrMsg := by decide
  have t1 : PoolStep (check (fun _ => Except.error "x")) ⟨["  "], 1, [], 0, []⟩
      ⟨[], 0, [""], 0, []⟩ := by
    have h := @PoolStep.read (check (fun _ => Except.error "x")) "  " [] 0 [] 0 [] (by decide)
    rwa [hs] at h
  have t2 : PoolStep (check (fun _ => Except.error "x")) ⟨[], 0, [""], 0, []⟩
      ⟨[], 1, [], 0, [("", errorRow "" attrMsg)]⟩ := by
    have h := @PoolStep.finish (check (fun _ => Except.error "x")) [] 0 [] "" [] 0 []
    rwa [hc] at h
  have t3 : PoolStep (check (fun _ => Except.error "x"))
      ⟨[], 1, [], 0, [("", errorRow "" attrMsg)]⟩
      ⟨[], 0, [], 1, [("", errorRow "" attrMsg)]⟩ :=
    PoolStep.eof 0 [] 0 _
  exact ⟨Relation.ReflTransGen.head t1
    (Relation.ReflTransGen.head t2 (Relation.ReflTransGen.single t3)), hs, by decide⟩

/-- C5 amended: a line that is empty after stripping is processed like any
other URL; domain extraction fails and a (nonempty) error record is
produced for it, whatever the HTTP collaborator would have answered;
processing then continues as for any other line. -/
theorem c5_blank_amended (oracle : String → Except String ℕ) (l : String)
    (hl : pyStrip l = "") :
    check oracle (pyStrip l) = errorRow "" attrMsg ∧ errorRow "" attrMsg ≠ [] := by
  rw [hl]
  have hdom : extractDomain (normalizeUrl "") = none := by decide
  refine ⟨?_, by decide⟩
  simp only [check, hdom]

/-- Witness for the amended C5 at the concrete whitespace line. -/
theorem c5_blank_amended_witness :
    check (fun _ => Except.error "x") (pyStrip " ") = errorRow "" attrMsg ∧
    errorRow "" attrMsg ≠ [] :=
  c5_blank_amended (fun _ => Except.error "x") " " (by decide)

/-- C6 (refuted as stated): the program performs no final flush after the
workers exit.  A complete 200-worker program trace in which the only
record is written within 2 seconds of the start of its worker contains no
flush at all — the claimed unconditional final flush does not exist in
lines 99-104. -/
theorem c6_no_final_flush_counterexample :
    ProgramTrace (workerActs 0 [(1, ["u", "ERROR: x"])] :: List.replicate 199 [])
      [SinkAct.write ["u", "ERROR: x"]] ∧
    SinkAct.flush ∉ [SinkAct.write ["u", "ERROR: x"]] := by
  have hw : workerActs 0 [(1, ["u", "ERROR: x"])] = [SinkAct.write ["u", "ERROR: x"]] := by
    simp [workerActs, flushAfterRecord]
  refine ⟨⟨by rw [List.length_cons, List.length_replicate]; rfl, ?_⟩, by decide⟩
  rw [hw]
  exact interleave_single [SinkAct.write ["u", "ERROR: x"]] 199

/-- C6 amended: the sink actions of the program contain exactly the flushes the
workers perform in-loop — one after each record written more than 2
seconds after the start of that worker — and nothing more: no flush is
appended after the workers finish. -/
theorem c6_no_final_flush_amended :
    (∀ (logs : List (List SinkAct)) (tr : List SinkAct), Interleave logs tr →
      tr.count SinkAct.flush = (logs.map (List.count SinkAct.flush)).sum) ∧
    (∀ (start : ℚ) (jobs : List (ℚ × List String)),
      (workerActs start jobs).count SinkAct.flush
        = (jobs.filter (fun j => flushAfterRecord start j.1)).length) := by
  constructor
  · intro logs tr h
    exact interleave_count SinkAct.flush h
  · intro start jobs
    induction jobs with
    | nil => rfl
    | cons j js ih =>
      rcases Bool.eq_false_or_eq_true (flushAfterRecord start j.1) with hb | hb <;>
        simp [workerActs, List.filter_cons, hb, List.count_cons, List.count_append] at ih ⊢ <;>
        omega

/-- Witness for the amended C6 at a concrete one-worker interleaving. -/
theorem c6_no_final_flush_witness :
    List.count SinkAct.flush [SinkAct.flush] =
      ([[SinkAct.flush]].map (List.count SinkAct.flush)).sum :=
  c6_no_final_flush_amended.1 [[SinkAct.flush]] [SinkAct.flush]
    (interleave_single [SinkAct.flush] 0)

/-- C7 (refuted as stated): the flush decision of lines 50-51 compares
against the fixed `start_time` of the worker, not against the last flush.  A
worker started at 0 that writes records at times 3 and 4 flushes after
both, although only 1 second separates the second record from the
previous flush — so "flush iff more than 2 seconds since the last flush"
is false of the code. -/
theorem c7_flush_counterexample :
    flushTrace 0 [3, 4] = [(3, true), (4, true)] ∧
    sinceLastFlushOk 0 (flushTrace 0 [3, 4]) = false := by
  have h : flushTrace 0 [3, 4] = [(3, true), (4, true)] := by
    simp [flushTrace, flushAfterRecord]
    norm_num
  refine ⟨h, ?_⟩
  rw [h]
  simp [sinceLastFlushOk]
  norm_num

/-- C7 amended: the flush after writing a record occurs iff more than 2
seconds have elapsed since the own start time of the worker (`start_time`,
line 34, never updated), and the timing is per worker, not sink-wide: two
workers with different start times can decide differently about the same
wall-clock instant. -/
theorem c7_flush_amended :
    (∀ (start : ℚ) (times : List ℚ), sinceStartOk start (flushTrace start times) = true) ∧
    flushTrace 0 [3] = [(3, true)] ∧ flushTrace 2 [3] = [(3, false)] := by
  refine ⟨?_, ?_, ?_⟩
  · intro start times
    induction times with
    | nil => rfl
    | cons t ts ih =>
      simp [flushTrace, sinceStartOk, flushAfterRecord] at ih ⊢
      exact ih
  · simp [flushTrace, flushAfterRecord]
    norm_num
  · simp [flushTrace, flushAfterRecord]
    norm_num

/-- Witness for the amended C7 at a concrete trace. -/
theorem c7_flush_amended_witness :
    sinceStartOk 0 (flushTrace 0 [5]) = true := c7_flush_amended.1 0 [5]

/-- C8: a `RateLimit` with a configured (nonempty) scope `sc` matches a
domain `d` iff `d = sc` or `d` ends with `"."` followed by `sc`; a
`RateLimit` with no configured domain matches every domain; and the
`"example.com"` scope matches `"example.com"` and `"api.example.com"` but
not `"notexample.com"`. -/
theorem c8_matches_spec :
    (∀ (rl : RateLimit) (sc d : String), rl.domain = some sc → sc ≠ "" →
      (rl.matches d = true ↔ d = sc ∨ ∃ p : List Char, d.data = p ++ '.' :: sc.data)) ∧
    (∀ (rl : RateLimit) (d : String), rl.domain = none → rl.matches d = true) ∧
    RateLimit.matches ⟨some "example.com", 1, 1, 0⟩ "example.com" = true ∧
    RateLimit.matches ⟨some "example.com", 1, 1, 0⟩ "api.example.com" = true ∧
    RateLimit.matches ⟨some "example.com", 1, 1, 0⟩ "notexample.com" = false := by
  refine ⟨?_, ?_, by decide, by decide, by decide⟩
  · intro rl sc d hdom hne
    simp only [RateLimit.matches, hdom, if_neg hne]
    rw [Bool.or_eq_true, beq_iff_eq, strEndsWith, List.isSuffixOf_iff_suffix]
    have hdata : ("." ++ sc).data = '.' :: sc.data := by
      rw [String.data_append]
      rfl
    rw [hdata]
    constructor
    · rintro (h | ⟨p, hp⟩)
      · exact Or.inl h
      · exact Or.inr ⟨p, hp.symm⟩
    · rintro (h | ⟨p, hp⟩)
      · exact Or.inl h
      · exact Or.inr ⟨p, hp.symm⟩
  · intro rl d hdom
    simp [RateLimit.matches, hdom]

/-- Witness for C8 at the subdomain example. -/
theorem c8_matches_spec_witness :
    RateLimit.matches ⟨some "example.com", 1, 1, 0⟩ "api.example.com" = true :=
  (c8_matches_spec.1 ⟨some "example.com", 1, 1, 0⟩ "example.com" "api.example.com" rfl
    (by decide)).mpr (Or.inr ⟨['a', 'p', 'i'], by decide⟩)

/-- C9: whatever the HTTP collaborator does — in particular when it fails
on every URL — a completed run still writes exactly one record per input
line (no failure ever aborts a worker loop or the run), and any record
whose request failed with message `e` is the inline error record
`[url, "ERROR: " ++ e]`. -/
theorem c9_errors_captured (oracle : String → Except String ℕ) (lines : List String) (n : ℕ)
    (s : PoolState) (hn : 1 ≤ n) (hno : "" ∉ lines)
    (h : PoolReach (check oracle) (poolInit n lines) s)
    (hready : s.ready = 0) (hwork : s.working = []) :
    (s.recs.map Prod.fst).Perm (lines.map pyStrip) ∧
    (∀ p ∈ s.recs, ∀ e : String, (extractDomain (normalizeUrl p.1)).isSome = true →
      oracle (normalizeUrl p.1) = Except.error e → p.2 = [p.1, "ERROR: " ++ e]) := by
  obtain ⟨h1, h2, h3, h4, h5⟩ := poolStep_inv hno h
  have hd : s.done = n := by rw [hready, hwork] at h2; simpa using h2
  have hrem : s.remaining = [] := h3 (by omega)
  have hms : (↑(s.recs.map Prod.fst) : Multiset String) = ↑(lines.map pyStrip) := by
    rw [hwork, hrem] at h4; simpa using h4
  refine ⟨Multiset.coe_eq_coe.mp hms, ?_⟩
  intro p hp e hdom herr
  have hrow := h5 p hp
  obtain ⟨dm, hdm⟩ := Option.isSome_iff_exists.mp hdom
  rw [hrow]
  simp only [check, hdm, herr]
  rfl

/-- Witness for C9: a completed run with an always-failing collaborator
yields the inline error record. -/
theorem c9_errors_captured_witness :
    check (fun _ => Except.error "boom") "a" = ["a", "ERROR: " ++ "boom"] := by
  have t1 : PoolStep (check (fun _ => Except.error "boom")) ⟨["a"], 1, [], 0, []⟩
      ⟨[], 0, ["a"], 0, []⟩ := by
    have h := @PoolStep.read (check (fun _ => Except.error "boom")) "a" [] 0 [] 0 []
      (by decide)
    rwa [show pyStrip "a" = "a" from by decide] at h
  have t2 : PoolStep (check (fun _ => Except.error "boom")) ⟨[], 0, ["a"], 0, []⟩
      ⟨[], 1, [], 0, [("a", check (fun _ => Except.error "boom") "a")]⟩ :=
    PoolStep.finish [] 0 [] "a" [] 0 []
  have t3 : PoolStep (check (fun _ => Except.error "boom"))
      ⟨[], 1, [], 0, [("a", check (fun _ => Except.error "boom") "a")]⟩
      ⟨[], 0, [], 1, [("a", check (fun _ => Except.error "boom") "a")]⟩ :=
    PoolStep.eof 0 [] 0 _
  have hreach : PoolReach (check (fun _ => Except.error "boom")) (poolInit 1 ["a"])
      ⟨[], 0, [], 1, [("a", check (fun _ => Except.error "boom") "a")]⟩ :=
    Relation.ReflTransGen.head t1 (Relation.ReflTransGen.head t2 (Relation.ReflTransGen.single t3))
  have hc := c9_errors_captured (fun _ => Except.error "boom") ["a"] 1 _ (le_refl 1)
    (by decide) hreach rfl rfl
  exact hc.2 ("a", check (fun _ => Except.error "boom") "a") (by simp) "boom" (by decide) rfl

/-- C10: constructing a `RateLimit` fails (raising `ValueError`) exactly
when the rate part fails to parse as a float; every rate value that does
parse is accepted, every rate `≤ 0` — including `"-1"` and
`"example.com:-5"` — yields `interval = 0`, and with `interval = 0` a
waiting task can always acquire the gate immediately: acquisition never
blocks. -/
theorem c10_rate_parse :
    (∀ raw : String, (rateLimitInit raw).isOk = (pyFloat (ratePart raw)).isSome) ∧
    (∀ (raw : String) (rl : RateLimit), rateLimitInit raw = Except.ok rl → rl.rate ≤ 0 →
      rl.interval = 0) ∧
    rateLimitInit "-1" = Except.ok ⟨none, -1, 0, 0⟩ ∧
    rateLimitInit "example.com:-5" = Except.ok ⟨some "example.com", -5, 0, 0⟩ ∧
    (∀ rl : RateLimit, rl.interval = 0 → ∀ (t0 : ℚ) (s : GateState), 0 ≤ t0 →
      GateReach rl.interval (gateInit t0) s → ∀ i : ℕ, s.tasks i = none →
      GateStep rl.interval s ⟨s.time, s.time, Function.update s.tasks i (some s.time)⟩) := by
  refine ⟨?_, ?_, ?_, ?_, ?_⟩
  · intro raw
    cases h : pyFloat (ratePart raw) <;> simp [rateLimitInit, h, Except.isOk, Except.toBool]
  · intro raw rl h hr
    cases hp : pyFloat (ratePart raw) with
    | none => rw [rateLimitInit, hp] at h; exact absurd h (by simp)
    | some rate =>
      rw [rateLimitInit, hp] at h
      injection h with h
      subst h
      simp only at hr ⊢
      rw [if_neg (not_lt.mpr hr)]
  · simp [rateLimitInit, ratePart, splitAtColon, domainPart, pyFloat, pyStripChars, splitSign,
      natOfDigits, isDigitCh]
  · simp [rateLimitInit, ratePart, splitAtColon, domainPart, pyFloat, pyStripChars, splitSign,
      natOfDigits, isDigitCh]
  · intro rl h0 t0 s ht0 hreach i hi
    have hlu := gate_last_use_le_time ht0 hreach
    exact GateStep.acquire s.time s.last_use s.tasks i hi (by rw [h0, add_zero]; exact hlu)

/-- Witness for C10: the parse characterisation at `"-1"` and an immediate
acquisition on a fresh zero-interval gate. -/
theorem c10_rate_parse_witness :
    (rateLimitInit "-1").isOk = (pyFloat (ratePart "-1")).isSome ∧
    GateStep ((⟨none, 0, 0, 0⟩ : RateLimit)).interval (gateInit 0)
      ⟨0, 0, Function.update (fun _ => none) 0 (some 0)⟩ :=
  ⟨c10_rate_parse.1 "-1",
   c10_rate_parse.2.2.2.2 ⟨none, 0, 0, 0⟩ rfl 0 (gateInit 0) le_rfl
     Relation.ReflTransGen.refl 0 rfl⟩
